import Mathlib

/-!
Shallow embedding of the resource-lifetime core of the `game_engine`
repository (a Vulkan renderer written in Rust), together with proofs of the
specification's testable properties.

Conventions of the embedding:
* Rust `u32`/`usize` values are modelled as `Nat`; all the modelled
  quantities stay far below `2^32`, and every place where a source
  computation could differ from its `Nat` counterpart is noted at the
  definition.
* Vulkan handles (descriptor pools) are modelled as `Nat` identifiers
  handed out by a counter, mirroring the device returning a fresh handle
  from each `create_descriptor_pool` call.
* Fallible device calls are abstracted by explicit result oracles;
  a Rust `panic!`/`expect` (process abort) is modelled as `none` / a
  `fatal` flag.
* Rust `f32` arithmetic on small integral values is modelled exactly over
  `Nat`/`Rat`; each such definition documents the range on which the
  translation is exact.
-/

namespace GameEngine

/-- Vulkan result codes distinguished by `DescriptorAllocatorGrowable::allocate`
(`descriptor.rs`): success, the two pool-exhaustion-class errors that the
retry path matches on, and a catch-all for every other error code. -/
inductive VkResult where
  | success
  | errorOutOfPoolMemory
  | errorFragmentedPool
  | errorOther
  deriving DecidableEq

/-- Descriptor types occurring in the repository's `PoolSizeRatio` lists. -/
inductive DescriptorType where
  | storageImage
  | storageBuffer
  | uniformBuffer
  | combinedImageSampler
  deriving DecidableEq

/-- A descriptor-pool handle (`vk::DescriptorPool`), modelled as the index of
its creation by the device. -/
abbrev Pool := Nat

/-- State of `DescriptorAllocatorGrowable` (`descriptor.rs`).  The Rust struct
holds `device`, `ratios`, `full_pools`, `ready_pools`, `sets_per_pool`; the
`Vec` fields are modelled as lists with `Vec::push` appending at the end and
`Vec::pop` removing the last element.  The fields `next_handle`, `created`,
`destroyed` are ghost state modelling the device: `next_handle` is the next
fresh handle `create_descriptor_pool` returns, `created` records every handle
ever returned, `destroyed` records every handle passed to
`destroy_descriptor_pool`. -/
structure DescriptorAllocatorGrowable where
  ratios : List (DescriptorType × Rat)
  full_pools : List Pool
  ready_pools : List Pool
  sets_per_pool : Nat
  next_handle : Nat
  created : List Pool
  destroyed : List Pool
  deriving DecidableEq

namespace DescriptorAllocatorGrowable

/-- Constructor `DescriptorAllocatorGrowable::new(device, ratios, max_sets)`. -/
def new (ratios : List (DescriptorType × Rat)) (max_sets : Nat) :
    DescriptorAllocatorGrowable :=
  { ratios := ratios
    full_pools := []
    ready_pools := []
    sets_per_pool := max_sets
    next_handle := 0
    created := []
    destroyed := [] }

/-- The growth step `(sets_per_pool as f32 * 1.5) as u32` of the source.
For `x < 2^23` both `x as f32` and `x as f32 * 1.5` are exact binary
fractions, and the `as u32` cast truncates toward zero, so the source
computes exactly `⌊3 * x / 2⌋ = x * 3 / 2` in natural division. -/
def growTarget (x : Nat) : Nat :=
  x * 3 / 2

/-- Body of `create_new_pool`: the device returns a fresh pool handle sized by
`set_count` and the ratios (the sizes only parametrize the device call and
are not CPU-side allocator state). -/
def create_new_pool (s : DescriptorAllocatorGrowable) :
    Pool × DescriptorAllocatorGrowable :=
  (s.next_handle,
    { s with
      next_handle := s.next_handle + 1
      created := s.created ++ [s.next_handle] })

/-- Method `init_pool`: create one pool sized by the current target, push it
onto `ready_pools`, then grow the target by 1.5 (uncapped in the source). -/
def init_pool (s : DescriptorAllocatorGrowable) : DescriptorAllocatorGrowable :=
  let r := s.create_new_pool
  { r.2 with
    ready_pools := r.2.ready_pools ++ [r.1]
    sets_per_pool := growTarget r.2.sets_per_pool }

/-- Method `clear_pools`: `ready_pools.append(&mut full_pools)` moves every
full pool to the end of `ready_pools` and empties `full_pools`; each pool is
then reset device-side (no CPU-visible allocator state). -/
def clear_pools (s : DescriptorAllocatorGrowable) : DescriptorAllocatorGrowable :=
  { s with
    ready_pools := s.ready_pools ++ s.full_pools
    full_pools := [] }

/-- Method `destroy_pools`: destroy every pool in both collections and empty
them. -/
def destroy_pools (s : DescriptorAllocatorGrowable) : DescriptorAllocatorGrowable :=
  { s with
    ready_pools := []
    full_pools := []
    destroyed := s.destroyed ++ s.ready_pools ++ s.full_pools }

/-- Method `get_pool`: pop the last ready pool if any; otherwise create a
fresh pool and grow the target by 1.5 capped at 4092 (the cap exists only on
this path, not in `init_pool`). -/
def get_pool (s : DescriptorAllocatorGrowable) :
    Pool × DescriptorAllocatorGrowable :=
  match s.ready_pools.getLast? with
  | none =>
      let r := s.create_new_pool
      (r.1, { r.2 with sets_per_pool := min (growTarget r.2.sets_per_pool) 4092 })
  | some p => (p, { s with ready_pools := s.ready_pools.dropLast })

end DescriptorAllocatorGrowable

/-- Result of one `DescriptorAllocatorGrowable::allocate` call: the pools on
which descriptor-set allocation was attempted (in order), whether the call
aborted the process (`expect`/`panic!` in the source), and the allocator
state when the call returned or aborted. -/
structure AllocateOutcome where
  attempts : List Pool
  fatal : Bool
  state : DescriptorAllocatorGrowable
  deriving DecidableEq

namespace DescriptorAllocatorGrowable

/-- Method `allocate(layout)`.  `oracle p` abstracts the device's answer to
`allocate_descriptor_sets` on pool `p`.  First attempt on `get_pool`'s pool;
on success push it back to `ready_pools`; on an exhaustion-class error move
it to `full_pools`, take another pool via `get_pool` and retry exactly once,
any second failure aborting; any other first-attempt error aborts. -/
def allocate (oracle : Pool → VkResult) (s : DescriptorAllocatorGrowable) :
    AllocateOutcome :=
  let r1 := s.get_pool
  match oracle r1.1 with
  | .success =>
      { attempts := [r1.1]
        fatal := false
        state := { r1.2 with ready_pools := r1.2.ready_pools ++ [r1.1] } }
  | .errorOutOfPoolMemory | .errorFragmentedPool =>
      let s2 := { r1.2 with full_pools := r1.2.full_pools ++ [r1.1] }
      let r2 := s2.get_pool
      match oracle r2.1 with
      | .success =>
          { attempts := [r1.1, r2.1]
            fatal := false
            state := { r2.2 with ready_pools := r2.2.ready_pools ++ [r2.1] } }
      | _ => { attempts := [r1.1, r2.1], fatal := true, state := r2.2 }
  | .errorOther => { attempts := [r1.1], fatal := true, state := r1.2 }

/-- Well-formedness of an allocator state: the pool handles held in `ready`
and `full` are pairwise distinct, and every held handle was previously
handed out by the device (is below the fresh-handle counter). -/
def WF (s : DescriptorAllocatorGrowable) : Prop :=
  (s.ready_pools ++ s.full_pools).Nodup ∧
  ∀ p ∈ s.ready_pools ++ s.full_pools, p < s.next_handle

instance (s : DescriptorAllocatorGrowable) : Decidable (WF s) := by
  unfold WF; infer_instance

end DescriptorAllocatorGrowable

/-- The two error codes `allocate` treats as recoverable pool exhaustion. -/
def exhaustionClass : VkResult → Bool
  | .errorOutOfPoolMemory => true
  | .errorFragmentedPool => true
  | _ => false

/-- The allocator state in the middle of `allocate`'s recovery path: the pool
obtained for the first attempt has been pushed onto `full_pools`. -/
def DescriptorAllocatorGrowable.after_first_failure (s : DescriptorAllocatorGrowable) :
    DescriptorAllocatorGrowable :=
  { s.get_pool.2 with full_pools := s.get_pool.2.full_pools ++ [s.get_pool.1] }

/-- One public operation on a `DescriptorAllocatorGrowable`; `alloc` carries
the device's response oracle for its (at most two) allocation attempts. -/
inductive GOp where
  | initPool
  | alloc (oracle : Pool → VkResult)
  | clearPools
  | destroyPools

/-- Effect of one operation; `none` models the process having aborted
(`allocate` panicking after its retry fails), so no completed state exists. -/
def stepG (s : DescriptorAllocatorGrowable) : GOp → Option DescriptorAllocatorGrowable
  | .initPool => some s.init_pool
  | .alloc oracle =>
      if (s.allocate oracle).fatal then none else some (s.allocate oracle).state
  | .clearPools => some s.clear_pools
  | .destroyPools => some s.destroy_pools

/-- Run a sequence of completed calls; `none` as soon as one aborts. -/
def runG (s : DescriptorAllocatorGrowable) : List GOp → Option DescriptorAllocatorGrowable
  | [] => some s
  | op :: ops =>
      match stepG s op with
      | none => none
      | some s' => runG s' ops

/-- Core pool-lifetime bookkeeping: `L` (the handles currently held by the
allocator) has no duplicates; every held handle was created and not yet
destroyed; every created, not-yet-destroyed handle is held (in `L`); created
handles are below the fresh counter; destroyed handles were created. -/
def Core (created destroyed : List Pool) (next : Nat) (L : List Pool) : Prop :=
  L.Nodup ∧
  (∀ q ∈ L, q ∈ created ∧ q ∉ destroyed) ∧
  (∀ q ∈ created, q ∉ destroyed → q ∈ L) ∧
  (∀ q ∈ created, q < next) ∧
  (∀ q ∈ destroyed, q ∈ created)

instance (c d : List Pool) (n : Nat) (L : List Pool) : Decidable (Core c d n L) := by
  unfold Core; infer_instance

/-- The pool-lifetime invariant of the claim: every pool handle ever created
by the allocator and not yet destroyed is held in exactly one of the `ready`
and `full` collections (no duplicates anywhere, nothing lost), handles come
from the device counter, and only created handles get destroyed. -/
def INV (s : DescriptorAllocatorGrowable) : Prop :=
  Core s.created s.destroyed s.next_handle (s.ready_pools ++ s.full_pools)

instance (s : DescriptorAllocatorGrowable) : Decidable (INV s) := by
  unfold INV; infer_instance

/-- Mid-`allocate` invariant: the allocator additionally holds one pool `p`
in hand (popped or freshly created by `get_pool`, not yet pushed back). -/
def Holding (s : DescriptorAllocatorGrowable) (p : Pool) : Prop :=
  Core s.created s.destroyed s.next_handle (p :: (s.ready_pools ++ s.full_pools))

/-- Total number of pools currently retained by the allocator. -/
def poolCount (s : DescriptorAllocatorGrowable) : Nat :=
  s.ready_pools.length + s.full_pools.length

/-! Pixel packing (`VulkanRenderer::pack_unorm4x8`, `vulkan_renderer.rs`) and
the default 16×16 checkerboard texture (`init_default_textures`).  The `f32`
channel values are modelled as exact rationals: every arithmetic step of the
source on the inputs of interest (dyadic rationals in `[0,1]`, times 255,
plus rounding) is exact in `f32`, so the rational computation coincides. -/
/-- A 4-component color (`[f32; 4]` in the source, `vec[0..3]` read as
r, g, b, a). -/
structure Color4 where
  r : Rat
  g : Rat
  b : Rat
  a : Rat

/-- Rust `f32::clamp(0.0, 1.0)`. -/
def clamp01 (x : Rat) : Rat := max 0 (min x 1)

/-- One channel of `pack_unorm4x8`: clamp to `[0,1]`, multiply by 255, then
`f32::round` (round half away from zero; on the non-negative values produced
here this is `⌊x + 1/2⌋`), then `as u32`. -/
def packChannel (x : Rat) : Nat :=
  (Int.floor (clamp01 x * 255 + 1/2)).toNat

/-- Method `pack_unorm4x8(vec)`: pack the four rounded channels as
`(r << 0) | (g << 8) | (b << 16) | (a << 24)`. -/
def pack_unorm4x8 (vec : Color4) : Nat :=
  (packChannel vec.r <<< 0) ||| (packChannel vec.g <<< 8) |||
    (packChannel vec.b <<< 16) ||| (packChannel vec.a <<< 24)

/-- The packed `black` color of `init_default_textures`. -/
def black_color : Nat := pack_unorm4x8 ⟨0, 0, 0, 1⟩

/-- The packed `magenta` color of `init_default_textures`. -/
def magenta_color : Nat := pack_unorm4x8 ⟨1, 0, 1, 1⟩

/-- The 16×16 error checkerboard of `init_default_textures`: the double loop
writes `black` to index `i * 16 + j` when `(i + j) % 2 == 0` and `magenta`
otherwise, which row-major layout this list reproduces. -/
def checkerboard : List Nat :=
  (List.range 16).flatMap fun i =>
    (List.range 16).map fun j =>
      if (i + j) % 2 = 0 then black_color else magenta_color

/-- Memory placement policies (`gpu_allocator::MemoryLocation`) seen by
`AllocatedBuffer::new`. -/
inductive MemoryLocation where
  | unknown
  | gpuOnly
  | cpuToGpu
  | gpuToCpu
  deriving DecidableEq

/-- State of an `AllocatedBuffer`: the backing allocation's bytes and the
`cpu_accesible` flag (spelling as in the source).  Device handles and the
allocator reference carry no transition-relevant state. -/
structure AllocatedBuffer where
  size : Nat
  contents : List Nat
  cpu_accesible : Bool
  deriving DecidableEq

/-- Constructor `AllocatedBuffer::new`: the buffer is CPU-accessible exactly
when created with the `CpuToGpu` placement; the fresh allocation's bytes are
modelled as zeroes. -/
def AllocatedBuffer.new (size : Nat) (location : MemoryLocation) : AllocatedBuffer :=
  { size := size
    contents := List.replicate size 0
    cpu_accesible := location == MemoryLocation.cpuToGpu }

/-- Overwrite `data.length` bytes of `mem` starting at `offset`. -/
def writeAt (mem data : List Nat) (offset : Nat) : List Nat :=
  mem.take offset ++ data ++ mem.drop (offset + data.length)

/-- Round `offset` up to the next multiple of `align` (identity for
`align = 0`; real element types always have positive alignment). -/
def alignUp (offset align : Nat) : Nat :=
  if align = 0 then offset else (offset + align - 1) / align * align

/-- Method `copy_from_slice::<T>(data, offset)`, with `data` the serialized
bytes of the slice and `align` the alignment of the element type `T`.  The
`!cpu_accesible` check panics first, before any state change.  Otherwise
`presser::copy_from_slice_to_offset` starts the copy at the first offset at
or after `offset` whose address is aligned for `T` (the mapped allocation's
base is at least that aligned, so address alignment is offset alignment) and
returns an error — turned into a panic by the `expect` — when the copy does
not fit inside the allocation; finally `assert!(copy_record.copy_start_offset
== offset)` panics when alignment moved the start past the requested offset.
Every panic is `none` (the process aborts, so no post-state is observable). -/
def AllocatedBuffer.copy_from_slice (b : AllocatedBuffer) (data : List Nat)
    (offset align : Nat) : Option AllocatedBuffer :=
  if b.cpu_accesible then
    if alignUp offset align + data.length ≤ b.size then
      if alignUp offset align = offset then
        some { b with contents := writeAt b.contents data offset }
      else none
    else none
  else none

/-! Frame-loop synchronization model (`VulkanRenderer::draw`,
`VulkanRenderer::resize_swapchain`, `vulkan_renderer.rs`;
`ImmediateCommandData::immediate_submit`, `immediate_submit.rs`;
`Device::wait_for_fence`, `device.rs`).  The CPU side is single-threaded, so
a run of the renderer is the sequence of device operations it issues; the
model records that sequence as a trace of events and the renderer state the
source mutates between calls (`frame_index`, the pending resize). -/
/-- The in-flight fences of the system: one per frame slot (`FrameData`)
plus the immediate-submit fence. -/
inductive FenceId where
  | slot (k : Nat)
  | imm
  deriving DecidableEq

/-- Device operations issued by the renderer that this model observes. -/
inductive Ev where
  | waitIdle
  | recreateSwapchain (width height : Nat)
  | fenceCreate (f : FenceId) (signaled : Bool)
  | fenceWait (f : FenceId) (timeout : Nat)
  | fenceReset (f : FenceId)
  | clearPools (k : Nat)
  | acquireImage (k : Nat) (timeout : Nat)
  | resetCmd (f : FenceId)
  | beginCmd (f : FenceId)
  | endCmd (f : FenceId)
  | submit (f : FenceId)
  | present (k : Nat)
  deriving DecidableEq

/-- Constant `MAX_FRAMES_IN_FLIGHT` of `vulkan_renderer.rs`. -/
def MAX_FRAMES_IN_FLIGHT : Nat := 2

/-- The trace of one `draw()` body on slot `k` after the optional resize
handling, in source order: wait on the slot's in-flight fence (1e9 ns
timeout, fatal on timeout), reset it, clear the slot's descriptor pools,
acquire the next swapchain image (1e9 ns timeout), reset and begin the
slot's command buffer, record and end it, submit fenced by the slot's
fence, present. -/
def drawBody (k : Nat) : List Ev :=
  [Ev.fenceWait (FenceId.slot k) 1000000000,
   Ev.fenceReset (FenceId.slot k),
   Ev.clearPools k,
   Ev.acquireImage k 1000000000,
   Ev.resetCmd (FenceId.slot k),
   Ev.beginCmd (FenceId.slot k),
   Ev.endCmd (FenceId.slot k),
   Ev.submit (FenceId.slot k),
   Ev.present k]

/-- The trace of one `immediate_submit` call: reset the dedicated fence and
command buffer, record, submit fenced, then block on the fence with
`u64::MAX` timeout. -/
def immTrace : List Ev :=
  [Ev.fenceReset FenceId.imm,
   Ev.resetCmd FenceId.imm,
   Ev.beginCmd FenceId.imm,
   Ev.endCmd FenceId.imm,
   Ev.submit FenceId.imm,
   Ev.fenceWait FenceId.imm (2 ^ 64 - 1)]

/-- Renderer state mutated between public calls: the frame counter and the
pending resize recorded by `resize_swapchain`. -/
structure RendererState where
  frame_index : Nat
  resize_swapchain : Option (Nat × Nat)
  deriving DecidableEq

/-- Renderer state right after `VulkanRenderer::new`. -/
def initialRenderer : RendererState :=
  { frame_index := 0, resize_swapchain := none }

/-- Public calls on the renderer observed by this model. -/
inductive RCall where
  | resize (width height : Nat)
  | draw
  | immediateSubmit

/-- Effect of one public call: `resize_swapchain` records the pending size
and issues nothing; `draw` first consumes a pending resize (device
idle-wait, swapchain reconstruction) and then runs the frame body on slot
`frame_index % MAX_FRAMES_IN_FLIGHT`, incrementing the counter;
`immediate_submit` runs its synchronous one-shot trace. -/
def stepCall (s : RendererState) : RCall → RendererState × List Ev
  | .resize w h => ({ s with resize_swapchain := some (w, h) }, [])
  | .draw =>
      let k := s.frame_index % MAX_FRAMES_IN_FLIGHT
      let pre : List Ev :=
        match s.resize_swapchain with
        | some (w, h) => [Ev.waitIdle, Ev.recreateSwapchain w h]
        | none => []
      ({ frame_index := s.frame_index + 1, resize_swapchain := none },
        pre ++ drawBody k)
  | .immediateSubmit => (s, immTrace)

/-- Run a sequence of public calls, concatenating the issued traces. -/
def runCalls (s : RendererState) : List RCall → RendererState × List Ev
  | [] => (s, [])
  | c :: cs =>
      let r := stepCall s c
      let rest := runCalls r.1 cs
      (rest.1, r.2 ++ rest.2)

/-- The events that begin reusing slot `k`'s per-frame resources: clearing
its descriptor pools, resetting its command buffer, beginning recording. -/
def recordish (k : Nat) : Ev → Bool
  | .clearPools q => q == k
  | .resetCmd (FenceId.slot q) => q == k
  | .beginCmd (FenceId.slot q) => q == k
  | _ => false

/-- Result of `Device::wait_for_fence`: `ash` maps every status other than
`VK_SUCCESS` (timeouts included) to an error, which the `expect` in
`wait_for_fences` turns into a panic. -/
inductive FenceWaitResult where
  | success
  | timeout
  | deviceLost
  deriving DecidableEq

/-- Method `Device::wait_for_fence`, `none` modelling the panic. -/
def wait_for_fence (r : FenceWaitResult) : Option Unit :=
  match r with
  | .success => some ()
  | _ => none

/-- Every recordish event on slot `k` is preceded (within the trace) by the
wait on slot `k`'s fence with the 1e9 ns timeout and then its reset. -/
def waitResetBefore (k : Nat) (tr : List Ev) : Prop :=
  ∀ j e, tr.get? j = some e → recordish k e = true →
    ∃ m m', m < m' ∧ m' < j ∧
      tr.get? m = some (Ev.fenceWait (FenceId.slot k) 1000000000) ∧
      tr.get? m' = some (Ev.fenceReset (FenceId.slot k))

/-- Between a submission fenced by slot `k`'s fence and any later recordish
event on slot `k` there is a wait on that fence followed by its reset. -/
def slotSafe (k : Nat) (tr : List Ev) : Prop :=
  ∀ i j e, tr.get? i = some (Ev.submit (FenceId.slot k)) → tr.get? j = some e →
    recordish k e = true → i < j →
    ∃ m m', i < m ∧ m < m' ∧ m' < j ∧
      tr.get? m = some (Ev.fenceWait (FenceId.slot k) 1000000000) ∧
      tr.get? m' = some (Ev.fenceReset (FenceId.slot k))

/-- Within one block no recordish event on slot `k` follows a submission on
slot `k` (recording precedes the submit of the same frame). -/
def noRecordAfterSubmit (k : Nat) (tr : List Ev) : Prop :=
  ∀ p q e, tr.get? p = some (Ev.submit (FenceId.slot k)) → tr.get? q = some e →
    recordish k e = true → q < p

/-- CPU-visible knowledge about one fence, folded over the trace:
`uncreated` before its creation event, `signaled` when created signaled and
not yet reset, `idle` when reset with no submission since, `pending` when
passed to a queue submission since its last reset. -/
inductive FenceStatus where
  | uncreated
  | signaled
  | idle
  | pending
  deriving DecidableEq

/-- Effect of one event on the status of fence `f`. -/
def stepFence (f : FenceId) (st : FenceStatus) : Ev → FenceStatus
  | Ev.fenceCreate g sig =>
      if g = f then (if sig then FenceStatus.signaled else FenceStatus.idle) else st
  | Ev.fenceReset g => if g = f then FenceStatus.idle else st
  | Ev.submit g => if g = f then FenceStatus.pending else st
  | _ => st

/-- Status of fence `f` after the trace `tr`. -/
def fenceStatus (f : FenceId) (tr : List Ev) : FenceStatus :=
  tr.foldl (stepFence f) FenceStatus.uncreated

/-- Fence-creation events of `VulkanRenderer::new`: both `FrameData::new`
calls and `ImmediateCommandData::new` create their in-flight fence with
`vk::FenceCreateFlags::SIGNALED`. -/
def initEvents : List Ev :=
  [Ev.fenceCreate (FenceId.slot 0) true,
   Ev.fenceCreate (FenceId.slot 1) true,
   Ev.fenceCreate FenceId.imm true]

/-- The full device trace of a renderer run: creation of the three in-flight
fences, then the traces of the public calls. -/
def fullTrace (calls : List RCall) : List Ev :=
  initEvents ++ (runCalls initialRenderer calls).2

/-- A fence status on which a CPU wait is justified: the fence was created
signaled and not reset since, or it has been submitted since its last
reset. -/
def goodStatus (st : FenceStatus) : Prop :=
  st = FenceStatus.signaled ∨ st = FenceStatus.pending

namespace DescriptorAllocatorGrowable

/-- Reduction of `get_pool` when no ready pool is available. -/
theorem get_pool_nil (s : DescriptorAllocatorGrowable) (h : s.ready_pools = []) :
    s.get_pool =
      (s.next_handle,
        { s with
          next_handle := s.next_handle + 1
          created := s.created ++ [s.next_handle]
          sets_per_pool := min (growTarget s.sets_per_pool) 4092 }) := by
  simp [get_pool, create_new_pool, h]

/-- Reduction of `get_pool` when a ready pool is available: `Vec::pop` takes
the last element. -/
theorem get_pool_concat (s : DescriptorAllocatorGrowable) (l : List Pool) (p : Pool)
    (h : s.ready_pools = l ++ [p]) :
    s.get_pool = (p, { s with ready_pools := l }) := by
  simp [get_pool, h, List.getLast?_concat]

/-- The `full_pools` collection is untouched by `get_pool`. -/
theorem get_pool_full_pools (s : DescriptorAllocatorGrowable) :
    s.get_pool.2.full_pools = s.full_pools := by
  rcases List.eq_nil_or_concat s.ready_pools with h | ⟨l, p, h⟩
  · rw [get_pool_nil s h]
  · rw [get_pool_concat s l p (by simpa using h)]

end DescriptorAllocatorGrowable

/-- Unfolding of `allocate` in terms of `get_pool` and `after_first_failure`. -/
theorem DescriptorAllocatorGrowable.allocate_def (oracle : Pool → VkResult)
    (s : DescriptorAllocatorGrowable) :
    s.allocate oracle =
      match oracle s.get_pool.1 with
      | .success =>
          { attempts := [s.get_pool.1]
            fatal := false
            state := { s.get_pool.2 with
                        ready_pools := s.get_pool.2.ready_pools ++ [s.get_pool.1] } }
      | .errorOutOfPoolMemory | .errorFragmentedPool =>
          match oracle s.after_first_failure.get_pool.1 with
          | .success =>
              { attempts := [s.get_pool.1, s.after_first_failure.get_pool.1]
                fatal := false
                state := { s.after_first_failure.get_pool.2 with
                            ready_pools := s.after_first_failure.get_pool.2.ready_pools ++
                              [s.after_first_failure.get_pool.1] } }
          | _ =>
              { attempts := [s.get_pool.1, s.after_first_failure.get_pool.1]
                fatal := true
                state := s.after_first_failure.get_pool.2 }
      | .errorOther => { attempts := [s.get_pool.1], fatal := true, state := s.get_pool.2 } :=
  rfl

/-- After the first attempt's pool has been moved to `full_pools`, the pool
the retry obtains from `get_pool` is a different handle (in a well-formed
state): it is either the next ready pool, distinct by `Nodup`, or a freshly
created handle, distinct because every held handle is below the counter. -/
theorem DescriptorAllocatorGrowable.second_pool_ne (s : DescriptorAllocatorGrowable)
    (hwf : s.WF) :
    s.after_first_failure.get_pool.1 ≠ s.get_pool.1 := by
  obtain ⟨hnd, hb⟩ := hwf
  rcases List.eq_nil_or_concat s.ready_pools with h | ⟨l, p, h⟩
  · simp [after_first_failure, get_pool, create_new_pool, h]
  · replace h : s.ready_pools = l ++ [p] := by simpa using h
    rcases List.eq_nil_or_concat l with hl | ⟨l', q, hl⟩
    · subst hl
      have hp : p < s.next_handle := by
        refine hb p ?_
        rw [h]
        simp
      simp [after_first_failure, get_pool, create_new_pool, h,
        List.getLast?_singleton]
      exact Ne.symm (Nat.ne_of_lt hp)
    · replace hl : l = l' ++ [q] := by simpa using hl
      subst hl
      have hready : (l' ++ [q] ++ [p]).Nodup := by
        have := hnd.of_append_left
        rwa [h] at this
      have hdisj := (List.nodup_append.mp hready).2.2
      have hq : q ∈ l' ++ [q] := by simp
      have hqp : q ≠ p := fun hqp => hdisj hq (by simp [hqp])
      simp [after_first_failure, get_pool, h, List.getLast?_concat,
        List.dropLast_concat]
      exact hqp

/-- C2 (confirmed).  If the device reports a pool-exhaustion-class error
(out-of-pool-memory or fragmented-pool) on every descriptor-set allocation
attempt, one `allocate` call makes exactly 2 attempts, on two different
pools, the first of which has been moved to the full list, and then aborts;
and any first-attempt error outside those two classes aborts with exactly
1 attempt. -/
theorem C2_retry_bound (s : GameEngine.DescriptorAllocatorGrowable)
    (oracle : Pool → VkResult) (hwf : s.WF) :
    ((∀ p, exhaustionClass (oracle p) = true) →
      (s.allocate oracle).fatal = true ∧
      (s.allocate oracle).attempts.length = 2 ∧
      ∃ p1 p2, (s.allocate oracle).attempts = [p1, p2] ∧ p1 ≠ p2 ∧
        p1 ∈ (s.allocate oracle).state.full_pools) ∧
    (exhaustionClass (oracle s.get_pool.1) = false →
      oracle s.get_pool.1 ≠ VkResult.success →
      (s.allocate oracle).fatal = true ∧
      (s.allocate oracle).attempts = [s.get_pool.1]) := by
  constructor
  · intro hall
    have hne := s.second_pool_ne hwf
    have hmem : s.get_pool.1 ∈ s.after_first_failure.get_pool.2.full_pools := by
      rw [DescriptorAllocatorGrowable.get_pool_full_pools]
      simp [DescriptorAllocatorGrowable.after_first_failure]
    have h1 := hall s.get_pool.1
    have h2 := hall s.after_first_failure.get_pool.1
    rw [DescriptorAllocatorGrowable.allocate_def]
    cases hc1 : oracle s.get_pool.1 <;> rw [hc1] at h1
    · exact absurd h1 (by simp [exhaustionClass])
    · cases hc2 : oracle s.after_first_failure.get_pool.1 <;> rw [hc2] at h2
      · exact absurd h2 (by simp [exhaustionClass])
      · exact ⟨rfl, rfl, _, _, rfl, Ne.symm hne, hmem⟩
      · exact ⟨rfl, rfl, _, _, rfl, Ne.symm hne, hmem⟩
      · exact ⟨rfl, rfl, _, _, rfl, Ne.symm hne, hmem⟩
    · cases hc2 : oracle s.after_first_failure.get_pool.1 <;> rw [hc2] at h2
      · exact absurd h2 (by simp [exhaustionClass])
      · exact ⟨rfl, rfl, _, _, rfl, Ne.symm hne, hmem⟩
      · exact ⟨rfl, rfl, _, _, rfl, Ne.symm hne, hmem⟩
      · exact ⟨rfl, rfl, _, _, rfl, Ne.symm hne, hmem⟩
    · exact absurd h1 (by simp [exhaustionClass])
  · intro hex hns
    rw [DescriptorAllocatorGrowable.allocate_def]
    cases hc1 : oracle s.get_pool.1 <;> rw [hc1] at hex hns
    · exact absurd rfl hns
    · exact absurd hex (by simp [exhaustionClass])
    · exact absurd hex (by simp [exhaustionClass])
    · exact ⟨rfl, rfl⟩

/-- Witness for C2_retry_bound: the repository's per-frame allocator right
after `init_pool` (one ready pool, handle 0), with a device that always
reports out-of-pool-memory. -/
theorem C2_retry_bound_witness :
    ((GameEngine.DescriptorAllocatorGrowable.new [] 1000).init_pool.allocate
        (fun _ => VkResult.errorOutOfPoolMemory)).fatal = true ∧
    ((GameEngine.DescriptorAllocatorGrowable.new [] 1000).init_pool.allocate
        (fun _ => VkResult.errorOutOfPoolMemory)).attempts.length = 2 := by
  have h := (C2_retry_bound ((GameEngine.DescriptorAllocatorGrowable.new [] 1000).init_pool)
      (fun _ => VkResult.errorOutOfPoolMemory) (by decide)).1 (fun _ => rfl)
  exact ⟨h.1, h.2.1⟩

/-- Membership in `L` is preserved by permutation, so is `Core`. -/
theorem Core.perm {c d : List Pool} {n : Nat} {L L' : List Pool}
    (h : Core c d n L) (hp : L.Perm L') : Core c d n L' := by
  obtain ⟨h1, h2, h3, h4, h5⟩ := h
  exact ⟨hp.nodup_iff.mp h1, fun q hq => h2 q (hp.mem_iff.mpr hq),
    fun q hq hd => hp.mem_iff.mp (h3 q hq hd), h4, h5⟩

namespace DescriptorAllocatorGrowable

/-- A fresh handle is not among the created ones. -/
theorem fresh_not_created (s : DescriptorAllocatorGrowable)
    (h4 : ∀ q ∈ s.created, q < s.next_handle) : s.next_handle ∉ s.created :=
  fun hmem => Nat.lt_irrefl _ (h4 _ hmem)

/-- The pool handed out by `get_pool` together with the post-`get_pool` state
satisfies the `Holding` invariant. -/
theorem get_pool_holding (s : DescriptorAllocatorGrowable) (h : INV s) :
    Holding s.get_pool.2 s.get_pool.1 := by
  obtain ⟨h1, h2, h3, h4, h5⟩ := h
  rcases List.eq_nil_or_concat s.ready_pools with hr | ⟨l, p, hr⟩
  · rw [get_pool_nil s hr]
    have hfresh : s.next_handle ∉ s.created := s.fresh_not_created h4
    have hfreshD : s.next_handle ∉ s.destroyed :=
      fun hd => hfresh (h5 _ hd)
    refine ⟨?_, ?_, ?_, ?_, ?_⟩
    · rw [List.nodup_cons]
      refine ⟨fun hmem => hfresh (h2 _ hmem).1, h1⟩
    · intro q hq
      rcases List.mem_cons.mp hq with hq | hq
      · subst hq
        exact ⟨by simp, hfreshD⟩
      · have := h2 q hq
        exact ⟨by simp [this.1], this.2⟩
    · intro q hq hd
      rcases (by simpa using hq : q ∈ s.created ∨ q = s.next_handle) with hq | hq
      · exact List.mem_cons.mpr (Or.inr (h3 q hq hd))
      · subst hq
        exact List.mem_cons.mpr (Or.inl rfl)
    · intro q hq
      rcases (by simpa using hq : q ∈ s.created ∨ q = s.next_handle) with hq | hq
      · exact Nat.lt_succ_of_lt (h4 q hq)
      · subst hq
        exact Nat.lt_succ_self _
    · exact fun q hq => by simp [h5 q hq]
  · replace hr : s.ready_pools = l ++ [p] := by simpa using hr
    rw [get_pool_concat s l p hr]
    have hperm : (s.ready_pools ++ s.full_pools).Perm
        (p :: (l ++ s.full_pools)) := by
      rw [hr, List.append_assoc]
      simpa using List.perm_middle
    exact Core.perm ⟨h1, h2, h3, h4, h5⟩ hperm

/-- Pushing the held pool onto `ready_pools` restores the invariant. -/
theorem holding_push_ready (s : DescriptorAllocatorGrowable) (p : Pool)
    (h : Holding s p) :
    INV { s with ready_pools := s.ready_pools ++ [p] } := by
  refine Core.perm h ?_
  show (p :: (s.ready_pools ++ s.full_pools)).Perm
    ((s.ready_pools ++ [p]) ++ s.full_pools)
  rw [List.append_assoc]
  simpa using List.perm_middle.symm

/-- Pushing the held pool onto `full_pools` restores the invariant. -/
theorem holding_push_full (s : DescriptorAllocatorGrowable) (p : Pool)
    (h : Holding s p) :
    INV { s with full_pools := s.full_pools ++ [p] } := by
  refine Core.perm h ?_
  show (p :: (s.ready_pools ++ s.full_pools)).Perm
    (s.ready_pools ++ (s.full_pools ++ [p]))
  have hc : ([p] ++ (s.ready_pools ++ s.full_pools)).Perm
      ((s.ready_pools ++ s.full_pools) ++ [p]) :=
    @List.perm_append_comm _ [p] (s.ready_pools ++ s.full_pools)
  simpa [List.append_assoc] using hc

/-- Explicit form of `init_pool`. -/
theorem init_pool_def (s : DescriptorAllocatorGrowable) :
    s.init_pool =
      { s with
        ready_pools := s.ready_pools ++ [s.next_handle]
        sets_per_pool := growTarget s.sets_per_pool
        next_handle := s.next_handle + 1
        created := s.created ++ [s.next_handle] } :=
  rfl

/-- `init_pool` preserves the pool-lifetime invariant: the freshly created
pool handle enters `ready_pools` and the created set simultaneously. -/
theorem init_pool_inv (s : DescriptorAllocatorGrowable) (h : INV s) :
    INV s.init_pool := by
  obtain ⟨h1, h2, h3, h4, h5⟩ := h
  have hfresh : s.next_handle ∉ s.created := s.fresh_not_created h4
  have hfreshD : s.next_handle ∉ s.destroyed := fun hd => hfresh (h5 _ hd)
  have hfreshL : s.next_handle ∉ s.ready_pools ++ s.full_pools :=
    fun hm => hfresh (h2 _ hm).1
  have hcore : Core (s.created ++ [s.next_handle]) s.destroyed (s.next_handle + 1)
      (s.next_handle :: (s.ready_pools ++ s.full_pools)) := by
    refine ⟨List.nodup_cons.mpr ⟨hfreshL, h1⟩, ?_, ?_, ?_, ?_⟩
    · intro q hq
      rcases List.mem_cons.mp hq with hq | hq
      · subst hq
        exact ⟨by simp, hfreshD⟩
      · have := h2 q hq
        exact ⟨by simp [this.1], this.2⟩
    · intro q hq hd
      rcases (by simpa using hq : q ∈ s.created ∨ q = s.next_handle) with hq | hq
      · exact List.mem_cons.mpr (Or.inr (h3 q hq hd))
      · subst hq
        exact List.mem_cons.mpr (Or.inl rfl)
    · intro q hq
      rcases (by simpa using hq : q ∈ s.created ∨ q = s.next_handle) with hq | hq
      · exact Nat.lt_succ_of_lt (h4 q hq)
      · subst hq
        exact Nat.lt_succ_self _
    · exact fun q hq => by simp [h5 q hq]
  have hperm : (s.next_handle :: (s.ready_pools ++ s.full_pools)).Perm
      ((s.ready_pools ++ [s.next_handle]) ++ s.full_pools) := by
    rw [List.append_assoc]
    exact (@List.perm_middle _ s.next_handle s.ready_pools s.full_pools).symm
  exact Core.perm hcore hperm

/-- `clear_pools` preserves the pool-lifetime invariant: it merely moves the
full pools to the end of `ready_pools` (same handles, same multiplicity). -/
theorem clear_pools_inv (s : DescriptorAllocatorGrowable) (h : INV s) :
    INV s.clear_pools :=
  Core.perm h (by simp [clear_pools])

/-- `destroy_pools` preserves the pool-lifetime invariant: both collections
are emptied and every handle they held becomes destroyed. -/
theorem destroy_pools_inv (s : DescriptorAllocatorGrowable) (h : INV s) :
    INV s.destroy_pools := by
  obtain ⟨h1, h2, h3, h4, h5⟩ := h
  refine ⟨by simp [destroy_pools], ?_, ?_, ?_, ?_⟩
  · intro q hq
    simp [destroy_pools] at hq
  · intro q hq hd
    simp only [destroy_pools, List.mem_append, not_or] at hd
    simp only [destroy_pools] at hq
    exfalso
    rcases List.mem_append.mp (h3 q hq fun hD => hd.1.1 hD) with hR | hF
    · exact hd.1.2 hR
    · exact hd.2 hF
  · intro q hq
    simp only [destroy_pools] at hq ⊢
    exact h4 q hq
  · intro q hq
    simp only [destroy_pools, List.mem_append] at hq ⊢
    rcases hq with (hq | hq) | hq
    · exact h5 q hq
    · exact (h2 q (List.mem_append.mpr (Or.inl hq))).1
    · exact (h2 q (List.mem_append.mpr (Or.inr hq))).1

/-- A completed `allocate` call preserves the pool-lifetime invariant. -/
theorem allocate_inv (oracle : Pool → VkResult) (s : DescriptorAllocatorGrowable)
    (h : INV s) (hnf : (s.allocate oracle).fatal = false) :
    INV (s.allocate oracle).state := by
  have hhold := s.get_pool_holding h
  have hinv2 : INV s.after_first_failure := holding_push_full _ _ hhold
  have hhold2 := s.after_first_failure.get_pool_holding hinv2
  rw [allocate_def] at hnf ⊢
  cases hc1 : oracle s.get_pool.1 <;> rw [hc1] at hnf
  · exact holding_push_ready _ _ hhold
  · cases hc2 : oracle s.after_first_failure.get_pool.1 <;> rw [hc2] at hnf
    · exact holding_push_ready _ _ hhold2
    · simp at hnf
    · simp at hnf
    · simp at hnf
  · cases hc2 : oracle s.after_first_failure.get_pool.1 <;> rw [hc2] at hnf
    · exact holding_push_ready _ _ hhold2
    · simp at hnf
    · simp at hnf
    · simp at hnf
  · simp at hnf

/-- `get_pool` removes at most one pool and never adds to the collections. -/
theorem get_pool_count (s : DescriptorAllocatorGrowable) :
    poolCount s.get_pool.2 ≤ poolCount s ∧ poolCount s ≤ poolCount s.get_pool.2 + 1 := by
  rcases List.eq_nil_or_concat s.ready_pools with hr | ⟨l, p, hr⟩
  · rw [get_pool_nil s hr]
    exact ⟨Nat.le_refl _, Nat.le_succ _⟩
  · replace hr : s.ready_pools = l ++ [p] := by simpa using hr
    rw [get_pool_concat s l p hr]
    simp [poolCount, hr]
    omega

/-- A completed `allocate` never shrinks the total pool population. -/
theorem allocate_count (oracle : Pool → VkResult) (s : DescriptorAllocatorGrowable)
    (hnf : (s.allocate oracle).fatal = false) :
    poolCount s ≤ poolCount (s.allocate oracle).state := by
  have hc1a := s.get_pool_count
  have hc2a := s.after_first_failure.get_pool_count
  have hafter : poolCount s.after_first_failure = poolCount s.get_pool.2 + 1 := by
    simp only [after_first_failure, poolCount, List.length_append,
      List.length_cons, List.length_nil]
    omega
  rw [allocate_def] at hnf ⊢
  cases hc1 : oracle s.get_pool.1 <;> rw [hc1] at hnf
  · show poolCount s ≤ poolCount { s.get_pool.2 with
        ready_pools := s.get_pool.2.ready_pools ++ [s.get_pool.1] }
    have hp : poolCount { s.get_pool.2 with
        ready_pools := s.get_pool.2.ready_pools ++ [s.get_pool.1] } =
        poolCount s.get_pool.2 + 1 := by
      simp only [poolCount, List.length_append, List.length_cons, List.length_nil]
      omega
    omega
  · cases hc2 : oracle s.after_first_failure.get_pool.1 <;> rw [hc2] at hnf
    · show poolCount s ≤ poolCount { s.after_first_failure.get_pool.2 with
          ready_pools := s.after_first_failure.get_pool.2.ready_pools ++
            [s.after_first_failure.get_pool.1] }
      have hp : poolCount { s.after_first_failure.get_pool.2 with
          ready_pools := s.after_first_failure.get_pool.2.ready_pools ++
            [s.after_first_failure.get_pool.1] } =
          poolCount s.after_first_failure.get_pool.2 + 1 := by
        simp only [poolCount, List.length_append, List.length_cons, List.length_nil]
        omega
      omega
    · simp at hnf
    · simp at hnf
    · simp at hnf
  · cases hc2 : oracle s.after_first_failure.get_pool.1 <;> rw [hc2] at hnf
    · show poolCount s ≤ poolCount { s.after_first_failure.get_pool.2 with
          ready_pools := s.after_first_failure.get_pool.2.ready_pools ++
            [s.after_first_failure.get_pool.1] }
      have hp : poolCount { s.after_first_failure.get_pool.2 with
          ready_pools := s.after_first_failure.get_pool.2.ready_pools ++
            [s.after_first_failure.get_pool.1] } =
          poolCount s.after_first_failure.get_pool.2 + 1 := by
        simp only [poolCount, List.length_append, List.length_cons, List.length_nil]
        omega
      omega
    · simp at hnf
    · simp at hnf
    · simp at hnf
  · simp at hnf

end DescriptorAllocatorGrowable

/-- One completed step preserves the pool-lifetime invariant. -/
theorem stepG_inv (s : DescriptorAllocatorGrowable) (op : GOp)
    (s' : DescriptorAllocatorGrowable) (h : INV s) (hs : stepG s op = some s') :
    INV s' := by
  cases op with
  | initPool =>
      cases hs
      exact s.init_pool_inv h
  | alloc oracle =>
      simp only [stepG] at hs
      split at hs
      · cases hs
      · rename_i hfatal
        cases hs
        exact DescriptorAllocatorGrowable.allocate_inv oracle s h (by simpa using hfatal)
  | clearPools =>
      cases hs
      exact s.clear_pools_inv h
  | destroyPools =>
      cases hs
      exact s.destroy_pools_inv h

/-- One completed step other than `destroy_pools` never shrinks the pool
population. -/
theorem stepG_count (s : DescriptorAllocatorGrowable) (op : GOp)
    (s' : DescriptorAllocatorGrowable) (hs : stepG s op = some s')
    (hop : op ≠ GOp.destroyPools) : poolCount s ≤ poolCount s' := by
  cases op with
  | initPool =>
      cases hs
      simp [DescriptorAllocatorGrowable.init_pool_def, poolCount]
  | alloc oracle =>
      simp only [stepG] at hs
      split at hs
      · cases hs
      · rename_i hfatal
        cases hs
        exact DescriptorAllocatorGrowable.allocate_count oracle s (by simpa using hfatal)
  | clearPools =>
      cases hs
      simp [DescriptorAllocatorGrowable.clear_pools, poolCount]
  | destroyPools => exact absurd rfl hop

/-- The invariant holds after every completed run. -/
theorem runG_inv (ops : List GOp) :
    ∀ s s' : DescriptorAllocatorGrowable, INV s → runG s ops = some s' → INV s' := by
  induction ops with
  | nil =>
      intro s s' h hr
      cases hr
      exact h
  | cons op ops ih =>
      intro s s' h hr
      simp only [runG] at hr
      cases hst : stepG s op with
      | none => rw [hst] at hr; cases hr
      | some s1 =>
          rw [hst] at hr
          exact ih s1 s' (stepG_inv s op s1 h hst) hr

/-- C3 (confirmed).  Along every sequence of completed calls on a
`DescriptorAllocatorGrowable` starting from an invariant-satisfying state
(for instance a freshly constructed allocator), after each completed call
every pool handle ever created and not yet destroyed sits in exactly one of
the `ready` and `full` collections (`INV`, which packages no-duplication,
no-loss and the device-handle bookkeeping); moreover from any such state a
further completed call other than `destroy_pools` never decreases
`|ready| + |full|`, while `destroy_pools` leaves zero pools (it destroys and
removes every handle from both collections). -/
theorem C3_pool_lifetime (s0 : GameEngine.DescriptorAllocatorGrowable) (h0 : INV s0)
    (ops : List GOp) (s : GameEngine.DescriptorAllocatorGrowable)
    (hrun : runG s0 ops = some s) :
    INV s ∧
    (∀ op s', stepG s op = some s' → op ≠ GOp.destroyPools →
      poolCount s ≤ poolCount s') ∧
    poolCount s.destroy_pools = 0 := by
  refine ⟨runG_inv ops s0 s h0 hrun,
    fun op s' hs hop => stepG_count s op s' hs hop, ?_⟩
  simp [poolCount, DescriptorAllocatorGrowable.destroy_pools]

/-- Witness for C3_pool_lifetime: the fresh allocator of `FrameData::new`,
run through `init_pool`, a successful `allocate`, and a `clear_pools`. -/
theorem C3_pool_lifetime_witness :
    INV { ratios := [], full_pools := [], ready_pools := [0], sets_per_pool := 1500,
          next_handle := 1, created := [0], destroyed := [] } ∧
    poolCount
      (DescriptorAllocatorGrowable.destroy_pools
        { ratios := [], full_pools := [], ready_pools := [0], sets_per_pool := 1500,
          next_handle := 1, created := [0], destroyed := [] }) = 0 := by
  have h := C3_pool_lifetime (DescriptorAllocatorGrowable.new [] 1000) (by decide)
    [GOp.initPool, GOp.alloc fun _ => VkResult.success, GOp.clearPools] _ rfl
  exact ⟨h.1, h.2.2⟩

/-- Disjoint bitwise-or is addition: or-ing a value below `2 ^ k` with a
multiple of `2 ^ k` adds them. -/
theorem lor_two_pow_mul (k : Nat) :
    ∀ a b : Nat, a < 2 ^ k → a ||| 2 ^ k * b = a + 2 ^ k * b := by
  induction k with
  | zero =>
      intro a b ha
      have ha0 : a = 0 := by omega
      subst ha0
      simp
  | succ k ih =>
      intro a b ha
      have hd : a.div2 < 2 ^ k := by
        rw [Nat.div2_val]
        rw [Nat.div_lt_iff_lt_mul (by norm_num)]
        calc a < 2 ^ (k + 1) := ha
          _ = 2 ^ k * 2 := by ring
      have h2 : 2 ^ (k + 1) * b = Nat.bit false (2 ^ k * b) := by
        simp [Nat.bit]
        ring
      conv_lhs => rw [← Nat.bit_decomp a, h2]
      rw [Nat.lor_bit, ih a.div2 b hd]
      have hgoal : (2 : Nat) ^ (k + 1) * b = 2 * (2 ^ k * b) := by ring
      rw [hgoal]
      have hb := Nat.bodd_add_div2 a
      cases hba : a.bodd <;> rw [hba] at hb <;> simp [Nat.bit] at hb ⊢ <;> omega

/-- Every packed channel fits in one byte. -/
theorem packChannel_le (x : Rat) : packChannel x ≤ 255 := by
  have h1 : clamp01 x ≤ 1 := by
    apply max_le
    · norm_num
    · exact min_le_right x 1
  have h3 : Int.floor (clamp01 x * 255 + 1/2) ≤ Int.floor ((511 : Rat)/2) :=
    Int.floor_le_floor (by linarith)
  have h4 : Int.floor ((511 : Rat)/2) = 255 := by norm_num
  simp only [packChannel]
  omega

/-- The packed word in positional form: channel bytes occupy disjoint bit
ranges, so the ors are sums. -/
theorem pack_unorm4x8_eq_sum (v : Color4) :
    pack_unorm4x8 v =
      packChannel v.r + 2 ^ 8 * packChannel v.g + 2 ^ 16 * packChannel v.b +
        2 ^ 24 * packChannel v.a := by
  have hr := packChannel_le v.r
  have hg := packChannel_le v.g
  have hb := packChannel_le v.b
  have ha := packChannel_le v.a
  simp only [pack_unorm4x8, Nat.shiftLeft_eq, pow_zero, mul_one]
  rw [mul_comm (packChannel v.g) (2 ^ 8), mul_comm (packChannel v.b) (2 ^ 16),
    mul_comm (packChannel v.a) (2 ^ 24)]
  rw [lor_two_pow_mul 8 _ _ (by omega)]
  rw [lor_two_pow_mul 16 _ _ (by omega)]
  rw [lor_two_pow_mul 24 _ _ (by omega)]

/-- Channel value of a full channel. -/
theorem packChannel_one : packChannel 1 = 255 := by
  simp only [packChannel, clamp01]
  norm_num
  rfl

/-- Channel value of an empty channel. -/
theorem packChannel_zero : packChannel 0 = 0 := by
  simp only [packChannel, clamp01]
  norm_num

/-- C4 (confirmed).  `pack_unorm4x8` packs the four channels as
`R | G<<8 | B<<16 | A<<24` (equivalently, in positional byte form), each
channel independently clamped to `[0,1]`, multiplied by 255 and rounded;
white packs to 0xFFFFFFFF, opaque black to 0xFF000000 (alpha in the top
byte), and magenta to 0xFFFF00FF. -/
theorem C4_pack_unorm4x8 (v : GameEngine.Color4) :
    (pack_unorm4x8 v = packChannel v.r + 2 ^ 8 * packChannel v.g +
        2 ^ 16 * packChannel v.b + 2 ^ 24 * packChannel v.a) ∧
    (∀ x : Rat, packChannel x = (Int.floor (max 0 (min x 1) * 255 + 1/2)).toNat ∧
      packChannel x ≤ 255) ∧
    pack_unorm4x8 ⟨1, 1, 1, 1⟩ = 0xFFFFFFFF ∧
    pack_unorm4x8 ⟨0, 0, 0, 1⟩ = 0xFF000000 ∧
    pack_unorm4x8 ⟨1, 0, 1, 1⟩ = 0xFFFF00FF := by
  refine ⟨pack_unorm4x8_eq_sum v, fun x => ⟨rfl, packChannel_le x⟩, ?_, ?_, ?_⟩
  · rw [pack_unorm4x8_eq_sum]
    norm_num [packChannel_one]
  · rw [pack_unorm4x8_eq_sum]
    norm_num [packChannel_one, packChannel_zero]
  · rw [pack_unorm4x8_eq_sum]
    norm_num [packChannel_one, packChannel_zero]

/-- The packed black constant, in hexadecimal. -/
theorem black_color_eq : black_color = 0xFF000000 := by
  show pack_unorm4x8 ⟨0, 0, 0, 1⟩ = 0xFF000000
  rw [pack_unorm4x8_eq_sum]
  norm_num [packChannel_one, packChannel_zero]

/-- The packed magenta constant, in hexadecimal. -/
theorem magenta_color_eq : magenta_color = 0xFFFF00FF := by
  show pack_unorm4x8 ⟨1, 0, 1, 1⟩ = 0xFFFF00FF
  rw [pack_unorm4x8_eq_sum]
  norm_num [packChannel_one, packChannel_zero]

/-- C5 (confirmed).  In the 16×16 checkerboard, the cell at `(i, j)` holds
exactly the first packed color (`black`) when `(i + j) % 2 = 0` and exactly
the second (`magenta`) otherwise, for all `i, j < 16`. -/
theorem C5_checkerboard (i j : Nat) (hi : i < 16) (hj : j < 16) :
    (checkerboard.get? (i * 16 + j) = some black_color ↔ (i + j) % 2 = 0) ∧
    (checkerboard.get? (i * 16 + j) = some magenta_color ↔ (i + j) % 2 ≠ 0) := by
  have hcb : checkerboard =
      (List.range 16).flatMap fun a =>
        (List.range 16).map fun b =>
          if (a + b) % 2 = 0 then 0xFF000000 else 0xFFFF00FF := by
    simp only [checkerboard, black_color_eq, magenta_color_eq]
  rw [hcb, black_color_eq, magenta_color_eq]
  revert j hj
  revert i hi
  decide

/-- Witness for C5_checkerboard at cell (1, 1): on-diagonal even cell. -/
theorem C5_checkerboard_witness :
    (checkerboard.get? (1 * 16 + 1) = some black_color ↔ (1 + 1) % 2 = 0) ∧
    (checkerboard.get? (1 * 16 + 1) = some magenta_color ↔ (1 + 1) % 2 ≠ 0) :=
  C5_checkerboard 1 1 (by decide) (by decide)

/-- C8, counterexample.  The claim asserts that on every CPU-accessible
buffer `copy_from_slice` copies the slice and returns normally, for every
`data` and `offset`.  The code has two further fatal paths on CPU-accessible
buffers: the `expect` on `presser::copy_from_slice_to_offset` panics when
the copy does not fit inside the allocation (here: an 8-byte write into a
4-byte host-visible buffer), and the `assert!` on `copy_start_offset`
panics when the requested offset is not aligned for the element type (here:
a 4-aligned element copied to offset 1). -/
theorem C8_counterexample :
    (AllocatedBuffer.new 4 MemoryLocation.cpuToGpu).cpu_accesible = true ∧
    (AllocatedBuffer.new 4 MemoryLocation.cpuToGpu).copy_from_slice
      [1, 2, 3, 4, 5, 6, 7, 8] 0 1 = none ∧
    (AllocatedBuffer.new 8 MemoryLocation.cpuToGpu).copy_from_slice
      [1, 2, 3, 4] 1 4 = none := by
  decide

/-- C8, amended.  `copy_from_slice` is fatal, with no state change before
the abort, whenever the buffer is not CPU-accessible, and a buffer is
CPU-accessible exactly when constructed with the `CpuToGpu` placement.  On a
CPU-accessible buffer the call copies the slice into the allocation at the
given offset and returns normally when that offset is aligned for the
element type and the copy fits inside the allocation; a copy that does not
fit is fatal (the `expect` on the presser copy), and an offset that
alignment would move is fatal (the `copy_start_offset` assertion). -/
theorem C8_copy_from_slice (size : Nat) (loc : GameEngine.MemoryLocation)
    (b : GameEngine.AllocatedBuffer) (data : List Nat) (offset align : Nat) :
    ((AllocatedBuffer.new size loc).cpu_accesible = true ↔
      loc = MemoryLocation.cpuToGpu) ∧
    (b.cpu_accesible = false → b.copy_from_slice data offset align = none) ∧
    (b.cpu_accesible = true → alignUp offset align = offset →
      offset + data.length ≤ b.size →
      b.copy_from_slice data offset align =
        some { b with contents := writeAt b.contents data offset }) ∧
    (b.cpu_accesible = true → b.size < alignUp offset align + data.length →
      b.copy_from_slice data offset align = none) ∧
    (b.cpu_accesible = true → alignUp offset align ≠ offset →
      b.copy_from_slice data offset align = none) := by
  refine ⟨?_, ?_, ?_, ?_, ?_⟩
  · cases loc <;> simp [AllocatedBuffer.new]
  · intro hf
    simp [AllocatedBuffer.copy_from_slice, hf]
  · intro ht hal hfit
    simp [AllocatedBuffer.copy_from_slice, ht, hal, hfit]
  · intro ht hover
    have hnfit : ¬(alignUp offset align + data.length ≤ b.size) := by omega
    simp [AllocatedBuffer.copy_from_slice, ht, hnfit]
  · intro ht hne
    simp [AllocatedBuffer.copy_from_slice, ht, hne]

/-- Witness for C8_copy_from_slice: a device-local 4-byte buffer rejects the
write fatally, while a host-visible one accepts an aligned write that fits. -/
theorem C8_copy_from_slice_witness :
    (AllocatedBuffer.new 4 MemoryLocation.gpuOnly).copy_from_slice [7, 9] 0 4 = none ∧
    (AllocatedBuffer.new 4 MemoryLocation.cpuToGpu).copy_from_slice [7, 9] 0 4 =
      some { AllocatedBuffer.new 4 MemoryLocation.cpuToGpu with
              contents := writeAt (AllocatedBuffer.new 4 MemoryLocation.cpuToGpu).contents
                [7, 9] 0 } := by
  have h1 := C8_copy_from_slice 4 MemoryLocation.gpuOnly
    (AllocatedBuffer.new 4 MemoryLocation.gpuOnly) [7, 9] 0 4
  have h2 := C8_copy_from_slice 4 MemoryLocation.cpuToGpu
    (AllocatedBuffer.new 4 MemoryLocation.cpuToGpu) [7, 9] 0 4
  exact ⟨h1.2.1 (by decide), h2.2.2.1 (by decide) (by decide) (by decide)⟩

/-- Recordish events in a draw body force the slot to match and sit at the
pool-clear, command-reset or begin-recording positions. -/
theorem drawBody_record_pos (k k' q : Nat) (e : Ev)
    (hq : (drawBody k').get? q = some e) (he : recordish k e = true) :
    k' = k ∧ (q = 2 ∨ q = 4 ∨ q = 5) := by
  have hlen : q < 9 := by
    by_contra hcon
    push_neg at hcon
    rw [List.get?_eq_none.mpr (by simpa [drawBody] using hcon)] at hq
    exact Option.noConfusion hq
  interval_cases q <;>
    simp only [drawBody, List.get?] at hq <;>
    (injection hq with hq; subst hq) <;>
    simp [recordish] at he <;>
    exact ⟨he, by omega⟩

/-- The only submission on a slot fence in a draw body is at position 7, and
it is the body's own slot. -/
theorem drawBody_submit_pos (k k' p : Nat)
    (hp : (drawBody k').get? p = some (Ev.submit (FenceId.slot k))) :
    k' = k ∧ p = 7 := by
  have hlen : p < 9 := by
    by_contra hcon
    push_neg at hcon
    rw [List.get?_eq_none.mpr (by simpa [drawBody] using hcon)] at hp
    exact Option.noConfusion hp
  interval_cases p <;>
    simp only [drawBody, List.get?] at hp <;>
    simp at hp <;>
    exact ⟨hp, rfl⟩

/-- A draw body waits on and then resets its slot's fence before every
recordish event. -/
theorem drawBody_wrb (k k' : Nat) : waitResetBefore k (drawBody k') := by
  intro j e hj he
  obtain ⟨hk, hq⟩ := drawBody_record_pos k k' j e hj he
  subst hk
  exact ⟨0, 1, by omega, by omega, rfl, rfl⟩

/-- In a draw body, recording precedes the submit. -/
theorem drawBody_nras (k k' : Nat) : noRecordAfterSubmit k (drawBody k') := by
  intro p q e hp hq he
  obtain ⟨hk1, hp7⟩ := drawBody_submit_pos k k' p hp
  obtain ⟨hk2, hq2⟩ := drawBody_record_pos k k' q e hq he
  omega

/-- The immediate-submit trace touches no frame slot's resources. -/
theorem immTrace_no_record (k q : Nat) (e : Ev)
    (hq : immTrace.get? q = some e) (he : recordish k e = true) : False := by
  have hlen : q < 6 := by
    by_contra hcon
    push_neg at hcon
    rw [List.get?_eq_none.mpr (by simpa [immTrace] using hcon)] at hq
    exact Option.noConfusion hq
  interval_cases q <;>
    simp only [immTrace, List.get?] at hq <;>
    (injection hq with hq; subst hq) <;>
    exact absurd he (by simp [recordish])

/-- The immediate-submit trace never submits on a frame slot's fence. -/
theorem immTrace_no_submit_slot (k p : Nat)
    (hp : immTrace.get? p = some (Ev.submit (FenceId.slot k))) : False := by
  have hlen : p < 6 := by
    by_contra hcon
    push_neg at hcon
    rw [List.get?_eq_none.mpr (by simpa [immTrace] using hcon)] at hp
    exact Option.noConfusion hp
  interval_cases p <;> simp only [immTrace, List.get?] at hp <;> simp at hp

/-- Prepending events without recordish content preserves the wait-reset
discipline. -/
theorem wrb_prefix (k : Nat) (pre B : List Ev)
    (hpre : ∀ e ∈ pre, recordish k e = false)
    (hB : waitResetBefore k B) : waitResetBefore k (pre ++ B) := by
  intro j e hj he
  by_cases hjl : j < pre.length
  · rw [List.get?_append hjl] at hj
    have hfalse := hpre e (List.get?_mem hj)
    rw [hfalse] at he
    cases he
  · push_neg at hjl
    rw [List.get?_append_right hjl] at hj
    obtain ⟨m, m', h1, h2, h3, h4⟩ := hB (j - pre.length) e hj he
    refine ⟨pre.length + m, pre.length + m', by omega, by omega, ?_, ?_⟩
    · rw [List.get?_append_right (by omega)]
      simpa using h3
    · rw [List.get?_append_right (by omega)]
      simpa using h4

/-- Prepending events with neither recordish content nor slot submissions
preserves record-before-submit. -/
theorem nras_prefix (k : Nat) (pre B : List Ev)
    (hpreR : ∀ e ∈ pre, recordish k e = false)
    (hpreS : ∀ p, pre.get? p ≠ some (Ev.submit (FenceId.slot k)))
    (hB : noRecordAfterSubmit k B) : noRecordAfterSubmit k (pre ++ B) := by
  intro p q e hp hq he
  by_cases hpl : p < pre.length
  · rw [List.get?_append hpl] at hp
    exact absurd hp (hpreS p)
  · push_neg at hpl
    rw [List.get?_append_right hpl] at hp
    by_cases hql : q < pre.length
    · rw [List.get?_append hql] at hq
      have hfalse := hpreR e (List.get?_mem hq)
      rw [hfalse] at he
      cases he
    · push_neg at hql
      rw [List.get?_append_right hql] at hq
      have := hB (p - pre.length) (q - pre.length) e hp hq he
      omega

/-- Wait-reset discipline is closed under concatenation. -/
theorem wrb_append (k : Nat) (B R : List Ev)
    (hB : waitResetBefore k B) (hR : waitResetBefore k R) :
    waitResetBefore k (B ++ R) := by
  intro j e hj he
  by_cases hjl : j < B.length
  · rw [List.get?_append hjl] at hj
    obtain ⟨m, m', h1, h2, h3, h4⟩ := hB j e hj he
    refine ⟨m, m', h1, h2, ?_, ?_⟩ <;> rw [List.get?_append (by omega)] <;> assumption
  · push_neg at hjl
    rw [List.get?_append_right hjl] at hj
    obtain ⟨m, m', h1, h2, h3, h4⟩ := hR (j - B.length) e hj he
    refine ⟨B.length + m, B.length + m', by omega, by omega, ?_, ?_⟩
    · rw [List.get?_append_right (by omega)]
      simpa using h3
    · rw [List.get?_append_right (by omega)]
      simpa using h4

/-- Appending a run that itself respects the wait-reset discipline to a
block whose recording precedes its submit preserves slot safety. -/
theorem slotSafe_append (k : Nat) (B R : List Ev)
    (hBn : noRecordAfterSubmit k B) (hRs : slotSafe k R)
    (hRw : waitResetBefore k R) : slotSafe k (B ++ R) := by
  intro i j e hi hj he hij
  by_cases hjl : j < B.length
  · have hil : i < B.length := by omega
    rw [List.get?_append hjl] at hj
    rw [List.get?_append hil] at hi
    have := hBn i j e hi hj he
    omega
  · push_neg at hjl
    rw [List.get?_append_right hjl] at hj
    by_cases hil : i < B.length
    · obtain ⟨m, m', h1, h2, h3, h4⟩ := hRw (j - B.length) e hj he
      refine ⟨B.length + m, B.length + m', by omega, by omega, by omega, ?_, ?_⟩
      · rw [List.get?_append_right (by omega)]
        simpa using h3
      · rw [List.get?_append_right (by omega)]
        simpa using h4
    · push_neg at hil
      rw [List.get?_append_right hil] at hi
      obtain ⟨m, m', h1, h2, h3, h4, h5⟩ :=
        hRs (i - B.length) (j - B.length) e hi hj he (by omega)
      refine ⟨B.length + m, B.length + m', by omega, by omega, by omega, ?_, ?_⟩
      · rw [List.get?_append_right (by omega)]
        simpa using h4
      · rw [List.get?_append_right (by omega)]
        simpa using h5

/-- The resize prefix of a draw contains no recordish events. -/
theorem resize_prefix_no_record (k w h : Nat) :
    ∀ e ∈ ([Ev.waitIdle, Ev.recreateSwapchain w h] : List Ev),
      recordish k e = false := by
  intro e hmem
  rcases (by simpa using hmem : e = Ev.waitIdle ∨ e = Ev.recreateSwapchain w h) with
    hh | hh <;> subst hh <;> rfl

/-- The resize prefix of a draw contains no slot submission. -/
theorem resize_prefix_no_submit (k w h : Nat) :
    ∀ p, ([Ev.waitIdle, Ev.recreateSwapchain w h] : List Ev).get? p ≠
      some (Ev.submit (FenceId.slot k)) := by
  intro p
  match p with
  | 0 => simp
  | 1 => simp
  | n + 2 => simp

/-- Every block a public call emits respects the wait-reset discipline and
records only before it submits. -/
theorem stepCall_wrb_nras (k : Nat) (s : RendererState) (c : RCall) :
    waitResetBefore k (stepCall s c).2 ∧ noRecordAfterSubmit k (stepCall s c).2 := by
  cases c with
  | resize w h =>
      constructor
      · intro j e hj he
        simp [stepCall] at hj
      · intro p q e hp hq he
        simp [stepCall] at hp
  | draw =>
      cases hrs : s.resize_swapchain with
      | none =>
          constructor
          · have hh := drawBody_wrb k (s.frame_index % MAX_FRAMES_IN_FLIGHT)
            simpa [stepCall, hrs] using hh
          · have hh := drawBody_nras k (s.frame_index % MAX_FRAMES_IN_FLIGHT)
            simpa [stepCall, hrs] using hh
      | some wh =>
          obtain ⟨w, h⟩ := wh
          constructor
          · have hh := wrb_prefix k [Ev.waitIdle, Ev.recreateSwapchain w h]
              (drawBody (s.frame_index % MAX_FRAMES_IN_FLIGHT))
              (resize_prefix_no_record k w h)
              (drawBody_wrb k (s.frame_index % MAX_FRAMES_IN_FLIGHT))
            simpa [stepCall, hrs] using hh
          · have hh := nras_prefix k [Ev.waitIdle, Ev.recreateSwapchain w h]
              (drawBody (s.frame_index % MAX_FRAMES_IN_FLIGHT))
              (resize_prefix_no_record k w h)
              (resize_prefix_no_submit k w h)
              (drawBody_nras k (s.frame_index % MAX_FRAMES_IN_FLIGHT))
            simpa [stepCall, hrs] using hh
  | immediateSubmit =>
      constructor
      · intro j e hj he
        exact (immTrace_no_record k j e (by simpa [stepCall] using hj) he).elim
      · intro p q e hp hq he
        exact (immTrace_no_submit_slot k p (by simpa [stepCall] using hp)).elim

/-- Every trace a sequence of public calls emits is slot-safe and respects
the wait-reset discipline. -/
theorem runCalls_safe (k : Nat) (calls : List RCall) :
    ∀ s : RendererState,
      slotSafe k (runCalls s calls).2 ∧ waitResetBefore k (runCalls s calls).2 := by
  induction calls with
  | nil =>
      intro s
      constructor
      · intro i j e hi hj he hij
        simp [runCalls] at hi
      · intro j e hj he
        simp [runCalls] at hj
  | cons c cs ih =>
      intro s
      have hblock := stepCall_wrb_nras k s c
      have hrest := ih (stepCall s c).1
      have hsplit : (runCalls s (c :: cs)).2 =
          (stepCall s c).2 ++ (runCalls (stepCall s c).1 cs).2 := rfl
      constructor
      · rw [hsplit]
        exact slotSafe_append k _ _ hblock.2 hrest.1 hrest.2
      · rw [hsplit]
        exact wrb_append k _ _ hblock.1 hrest.2

/-- C7 (confirmed).  In every run of the frame loop (with resize handling
and immediate submissions interleaved arbitrarily), between a queue
submission fenced by slot `k`'s in-flight fence and any later event that
starts reusing slot `k`'s per-frame resources — clearing its descriptor
pools, resetting or beginning its command buffer — the trace contains a wait
on that fence with the bounded 1×10^9 ns timeout followed by its reset;
with `MAX_FRAMES_IN_FLIGHT = 2` this is exactly the guarantee that frames
`f` and `f + 2`, which share a slot, never have outstanding GPU work on it
simultaneously.  Any wait outcome other than success (timeouts included) is
fatal in `Device::wait_for_fence`. -/
theorem C7_frame_slot_sync (s0 : GameEngine.RendererState) (calls : List RCall)
    (k i j : Nat) (e : Ev)
    (hi : (runCalls s0 calls).2.get? i = some (Ev.submit (FenceId.slot k)))
    (hj : (runCalls s0 calls).2.get? j = some e)
    (he : recordish k e = true) (hij : i < j) :
    (∃ m m', i < m ∧ m < m' ∧ m' < j ∧
      (runCalls s0 calls).2.get? m =
        some (Ev.fenceWait (FenceId.slot k) 1000000000) ∧
      (runCalls s0 calls).2.get? m' =
        some (Ev.fenceReset (FenceId.slot k))) ∧
    (∀ r, r ≠ FenceWaitResult.success → wait_for_fence r = none) := by
  constructor
  · exact (runCalls_safe k calls s0).1 i j e hi hj he hij
  · intro r hr
    cases r with
    | success => exact absurd rfl hr
    | timeout => rfl
    | deviceLost => rfl

/-- Witness for C7_frame_slot_sync: three draws from the initial state; the
submit of frame 0 on slot 0 sits at index 7, frame 2 reuses slot 0 and
clears its pools at index 20, and the wait (index 18) and reset (index 19)
stand between them. -/
theorem C7_frame_slot_sync_witness :
    (∃ m m', 7 < m ∧ m < m' ∧ m' < 20 ∧
      (runCalls initialRenderer [RCall.draw, RCall.draw, RCall.draw]).2.get? m =
        some (Ev.fenceWait (FenceId.slot 0) 1000000000) ∧
      (runCalls initialRenderer [RCall.draw, RCall.draw, RCall.draw]).2.get? m' =
        some (Ev.fenceReset (FenceId.slot 0))) ∧
    (∀ r, r ≠ FenceWaitResult.success → wait_for_fence r = none) :=
  C7_frame_slot_sync initialRenderer [RCall.draw, RCall.draw, RCall.draw]
    0 7 20 (Ev.clearPools 0) (by decide) (by decide) (by decide) (by decide)

/-- C9 (confirmed).  `resize_swapchain(logical_size)` only records the
pending logical size — the rest of the renderer state is untouched and no
device or swapchain operation is issued; the pending size is consumed at the
start of the next `draw()`, before the frame-slot fence wait (the trace
starts `wait_idle`, `recreate`, then the draw body, whose first event is the
fence wait), and is cleared by that draw, so a subsequent `draw()` without a
new resize issues no idle-wait or reconstruction (its trace is exactly the
draw body, which contains neither event). -/
theorem C9_resize_swapchain (s : GameEngine.RendererState) (w h : Nat) :
    (stepCall s (RCall.resize w h) =
      ({ s with resize_swapchain := some (w, h) }, [])) ∧
    (∀ w0 h0, s.resize_swapchain = some (w0, h0) →
      (stepCall s RCall.draw).2 =
        [Ev.waitIdle, Ev.recreateSwapchain w0 h0] ++
          drawBody (s.frame_index % MAX_FRAMES_IN_FLIGHT) ∧
      (stepCall s RCall.draw).1.resize_swapchain = none) ∧
    (s.resize_swapchain = none →
      (stepCall s RCall.draw).2 =
        drawBody (s.frame_index % MAX_FRAMES_IN_FLIGHT)) ∧
    (∀ k, Ev.waitIdle ∉ drawBody k ∧
      ∀ w0 h0, Ev.recreateSwapchain w0 h0 ∉ drawBody k) ∧
    (drawBody (s.frame_index % MAX_FRAMES_IN_FLIGHT)).get? 0 =
      some (Ev.fenceWait (FenceId.slot (s.frame_index % MAX_FRAMES_IN_FLIGHT))
        1000000000) := by
  refine ⟨rfl, ?_, ?_, ?_, rfl⟩
  · intro w0 h0 hrs
    constructor
    · simp [stepCall, hrs]
    · simp [stepCall]
  · intro hrs
    simp [stepCall, hrs]
  · intro k
    constructor
    · simp [drawBody]
    · intro w0 h0
      simp [drawBody]

/-- Witness for C9_resize_swapchain: a pending 800×600 resize is consumed at
the head of the next draw and cleared. -/
theorem C9_resize_swapchain_witness :
    (stepCall { frame_index := 0, resize_swapchain := some (800, 600) }
        RCall.draw).2 =
      [Ev.waitIdle, Ev.recreateSwapchain 800 600] ++ drawBody 0 ∧
    (stepCall { frame_index := 0, resize_swapchain := some (800, 600) }
        RCall.draw).1.resize_swapchain = none :=
  (C9_resize_swapchain { frame_index := 0, resize_swapchain := some (800, 600) }
      800 600).2.1 800 600 rfl

/-- Folding a draw body over its own slot's fence ends in `pending` (the
body submits on that fence after resetting it). -/
theorem foldl_drawBody_self (k : Nat) (x : FenceStatus) :
    List.foldl (stepFence (FenceId.slot k)) x (drawBody k) = FenceStatus.pending := by
  simp [drawBody, stepFence]

/-- A draw body leaves every other fence's status unchanged. -/
theorem foldl_drawBody_other (k : Nat) (f : FenceId) (hf : f ≠ FenceId.slot k)
    (x : FenceStatus) :
    List.foldl (stepFence f) x (drawBody k) = x := by
  have hf' : FenceId.slot k ≠ f := Ne.symm hf
  simp [drawBody, stepFence, hf']

/-- The immediate-submit trace ends with its own fence `pending`. -/
theorem foldl_immTrace_imm (x : FenceStatus) :
    List.foldl (stepFence FenceId.imm) x immTrace = FenceStatus.pending := by
  simp [immTrace, stepFence]

/-- The immediate-submit trace leaves the slot fences unchanged. -/
theorem foldl_immTrace_other (f : FenceId) (hf : f ≠ FenceId.imm) (x : FenceStatus) :
    List.foldl (stepFence f) x immTrace = x := by
  have hf' : FenceId.imm ≠ f := Ne.symm hf
  simp [immTrace, stepFence, hf']

/-- The resize prefix contains no fence events. -/
theorem foldl_resize_prefix (w h : Nat) (f : FenceId) (x : FenceStatus) :
    List.foldl (stepFence f) x [Ev.waitIdle, Ev.recreateSwapchain w h] = x := by
  simp [stepFence]

/-- The only fence wait in a draw body is the leading wait on its own slot's
fence with the 1e9 ns timeout. -/
theorem drawBody_wait_pos (k j : Nat) (f : FenceId) (t : Nat)
    (hj : (drawBody k).get? j = some (Ev.fenceWait f t)) :
    j = 0 ∧ f = FenceId.slot k ∧ t = 1000000000 := by
  have hlen : j < 9 := by
    by_contra hcon
    push_neg at hcon
    rw [List.get?_eq_none.mpr (by simpa [drawBody] using hcon)] at hj
    exact Option.noConfusion hj
  interval_cases j <;> simp only [drawBody, List.get?] at hj <;> simp at hj <;>
    exact ⟨rfl, hj.1.symm, hj.2.symm⟩

/-- The only fence wait in the immediate-submit trace is the trailing
unbounded wait on the immediate fence. -/
theorem immTrace_wait_pos (j : Nat) (f : FenceId) (t : Nat)
    (hj : immTrace.get? j = some (Ev.fenceWait f t)) :
    j = 5 ∧ f = FenceId.imm ∧ t = 2 ^ 64 - 1 := by
  have hlen : j < 6 := by
    by_contra hcon
    push_neg at hcon
    rw [List.get?_eq_none.mpr (by simpa [immTrace] using hcon)] at hj
    exact Option.noConfusion hj
  interval_cases j <;> simp only [immTrace, List.get?] at hj <;> simp at hj <;>
    exact ⟨rfl, hj.1.symm, hj.2.symm⟩

/-- Per-block fence discipline: inside the block every fence wait happens at
a good status (given good statuses on entry), and the three in-flight
fences' statuses are again good on exit. -/
theorem stepCall_fence_block (s : RendererState) (c : RCall)
    (st : FenceId → FenceStatus)
    (h0 : goodStatus (st (FenceId.slot 0)))
    (h1 : goodStatus (st (FenceId.slot 1)))
    (h2 : goodStatus (st FenceId.imm)) :
    (∀ j f t, (stepCall s c).2.get? j = some (Ev.fenceWait f t) →
      goodStatus (List.foldl (stepFence f) (st f) ((stepCall s c).2.take j))) ∧
    goodStatus (List.foldl (stepFence (FenceId.slot 0)) (st (FenceId.slot 0))
      (stepCall s c).2) ∧
    goodStatus (List.foldl (stepFence (FenceId.slot 1)) (st (FenceId.slot 1))
      (stepCall s c).2) ∧
    goodStatus (List.foldl (stepFence FenceId.imm) (st FenceId.imm)
      (stepCall s c).2) := by
  have hk2 : s.frame_index % MAX_FRAMES_IN_FLIGHT < 2 := by
    simp [MAX_FRAMES_IN_FLIGHT]
    omega
  have hgood : goodStatus (st (FenceId.slot (s.frame_index % MAX_FRAMES_IN_FLIGHT))) := by
    rcases (by omega : s.frame_index % MAX_FRAMES_IN_FLIGHT = 0 ∨
        s.frame_index % MAX_FRAMES_IN_FLIGHT = 1) with hk | hk <;> rw [hk]
    · exact h0
    · exact h1
  cases c with
  | resize w h =>
      refine ⟨?_, h0, h1, h2⟩
      intro j f t hj
      simp [stepCall] at hj
  | immediateSubmit =>
      have htr : (stepCall s RCall.immediateSubmit).2 = immTrace := rfl
      rw [htr]
      refine ⟨?_, ?_, ?_, ?_⟩
      · intro j f t hj
        obtain ⟨hj5, hf, ht⟩ := immTrace_wait_pos j f t hj
        subst hj5
        subst hf
        have : immTrace.take 5 =
            [Ev.fenceReset FenceId.imm, Ev.resetCmd FenceId.imm,
             Ev.beginCmd FenceId.imm, Ev.endCmd FenceId.imm,
             Ev.submit FenceId.imm] := rfl
        rw [this]
        right
        simp [stepFence]
      · rw [foldl_immTrace_other _ (by intro hh; cases hh) _]
        exact h0
      · rw [foldl_immTrace_other _ (by intro hh; cases hh) _]
        exact h1
      · rw [foldl_immTrace_imm]
        right
        rfl
  | draw =>
      cases hrs : s.resize_swapchain with
      | none =>
          have htr : (stepCall s RCall.draw).2 =
              drawBody (s.frame_index % MAX_FRAMES_IN_FLIGHT) := by
            simp [stepCall, hrs]
          rw [htr]
          refine ⟨?_, ?_, ?_, ?_⟩
          · intro j f t hj
            obtain ⟨hj0, hf, ht⟩ := drawBody_wait_pos _ j f t hj
            subst hj0
            subst hf
            simpa using hgood
          · rcases (by omega : s.frame_index % MAX_FRAMES_IN_FLIGHT = 0 ∨
                s.frame_index % MAX_FRAMES_IN_FLIGHT = 1) with hk | hk <;> rw [hk]
            · rw [foldl_drawBody_self]
              right
              rfl
            · rw [foldl_drawBody_other 1 _ (by intro hh; cases hh) _]
              exact h0
          · rcases (by omega : s.frame_index % MAX_FRAMES_IN_FLIGHT = 0 ∨
                s.frame_index % MAX_FRAMES_IN_FLIGHT = 1) with hk | hk <;> rw [hk]
            · rw [foldl_drawBody_other 0 _ (by intro hh; cases hh) _]
              exact h1
            · rw [foldl_drawBody_self]
              right
              rfl
          · rw [foldl_drawBody_other _ _ (by intro hh; cases hh) _]
            exact h2
      | some wh =>
          obtain ⟨w, h⟩ := wh
          have htr : (stepCall s RCall.draw).2 =
              [Ev.waitIdle, Ev.recreateSwapchain w h] ++
                drawBody (s.frame_index % MAX_FRAMES_IN_FLIGHT) := by
            simp [stepCall, hrs]
          rw [htr]
          refine ⟨?_, ?_, ?_, ?_⟩
          · intro j f t hj
            by_cases hjl : j < 2
            · exfalso
              interval_cases j <;> simp at hj
            · push_neg at hjl
              rw [List.get?_append_right (by simpa using hjl)] at hj
              obtain ⟨hj0, hf, ht⟩ := drawBody_wait_pos _ (j - 2) f t hj
              have hj2 : j = 2 := by omega
              subst hj2
              subst hf
              have htake : ([Ev.waitIdle, Ev.recreateSwapchain w h] ++
                  drawBody (s.frame_index % MAX_FRAMES_IN_FLIGHT)).take 2 =
                  [Ev.waitIdle, Ev.recreateSwapchain w h] := by
                rw [List.take_append_of_le_length (by simp)]
                rfl
              rw [htake, foldl_resize_prefix]
              exact hgood
          · rw [List.foldl_append, foldl_resize_prefix]
            rcases (by omega : s.frame_index % MAX_FRAMES_IN_FLIGHT = 0 ∨
                s.frame_index % MAX_FRAMES_IN_FLIGHT = 1) with hk | hk <;> rw [hk]
            · rw [foldl_drawBody_self]
              right
              rfl
            · rw [foldl_drawBody_other 1 _ (by intro hh; cases hh) _]
              exact h0
          · rw [List.foldl_append, foldl_resize_prefix]
            rcases (by omega : s.frame_index % MAX_FRAMES_IN_FLIGHT = 0 ∨
                s.frame_index % MAX_FRAMES_IN_FLIGHT = 1) with hk | hk <;> rw [hk]
            · rw [foldl_drawBody_other 0 _ (by intro hh; cases hh) _]
              exact h1
            · rw [foldl_drawBody_self]
              right
              rfl
          · rw [List.foldl_append, foldl_resize_prefix]
            rw [foldl_drawBody_other _ _ (by intro hh; cases hh) _]
            exact h2

/-- Run-level fence discipline: from good entry statuses, every fence wait
in the emitted trace happens at a good status, and the exit statuses are
again good. -/
theorem runCalls_fences (calls : List RCall) :
    ∀ (s : RendererState) (st : FenceId → FenceStatus),
      goodStatus (st (FenceId.slot 0)) → goodStatus (st (FenceId.slot 1)) →
      goodStatus (st FenceId.imm) →
      (∀ j f t, (runCalls s calls).2.get? j = some (Ev.fenceWait f t) →
        goodStatus (List.foldl (stepFence f) (st f) ((runCalls s calls).2.take j))) ∧
      goodStatus (List.foldl (stepFence (FenceId.slot 0)) (st (FenceId.slot 0))
        (runCalls s calls).2) ∧
      goodStatus (List.foldl (stepFence (FenceId.slot 1)) (st (FenceId.slot 1))
        (runCalls s calls).2) ∧
      goodStatus (List.foldl (stepFence FenceId.imm) (st FenceId.imm)
        (runCalls s calls).2) := by
  induction calls with
  | nil =>
      intro s st h0 h1 h2
      refine ⟨?_, h0, h1, h2⟩
      intro j f t hj
      simp [runCalls] at hj
  | cons c cs ih =>
      intro s st h0 h1 h2
      have hsplit : (runCalls s (c :: cs)).2 =
          (stepCall s c).2 ++ (runCalls (stepCall s c).1 cs).2 := rfl
      have hblock := stepCall_fence_block s c st h0 h1 h2
      have hrest := ih (stepCall s c).1
        (fun f => List.foldl (stepFence f) (st f) (stepCall s c).2)
        hblock.2.1 hblock.2.2.1 hblock.2.2.2
      rw [hsplit]
      refine ⟨?_, ?_, ?_, ?_⟩
      · intro j f t hj
        by_cases hjl : j < (stepCall s c).2.length
        · rw [List.get?_append hjl] at hj
          rw [List.take_append_of_le_length (by omega)]
          exact hblock.1 j f t hj
        · push_neg at hjl
          rw [List.get?_append_right hjl] at hj
          obtain ⟨j', rfl⟩ : ∃ j', j = (stepCall s c).2.length + j' :=
            ⟨j - (stepCall s c).2.length, by omega⟩
          rw [List.take_append, List.foldl_append]
          have hh := (hrest.1) j' f t (by simpa using hj)
          exact hh
      · rw [List.foldl_append]
        exact hrest.2.1
      · rw [List.foldl_append]
        exact hrest.2.2.1
      · rw [List.foldl_append]
        exact hrest.2.2.2

/-- C10 (confirmed).  Every in-flight fence (the two per-frame-slot fences
and the immediate-submit fence) is created in the signaled state, and in
every reachable trace of the system — any interleaving of `resize`,
`draw()` and `immediate_submit` calls after renderer construction — any
fence the CPU waits on is, at the moment of the wait, either still in its
created-signaled state (never reset) or has been passed to a queue
submission since its last reset.  In particular the first draw on each slot
and the first `immediate_submit` wait on fences that a submission (or the
signaled creation) guarantees will signal. -/
theorem C10_fence_waits (calls : List RCall) (j : Nat) (f : FenceId) (t : Nat)
    (hj : (fullTrace calls).get? j = some (Ev.fenceWait f t)) :
    fenceStatus f ((fullTrace calls).take j) = FenceStatus.signaled ∨
    fenceStatus f ((fullTrace calls).take j) = FenceStatus.pending := by
  have hlen3 : (3 : Nat) ≤ j := by
    by_contra hcon
    push_neg at hcon
    interval_cases j <;> simp [fullTrace, initEvents] at hj
  obtain ⟨j', rfl⟩ : ∃ j', j = 3 + j' := ⟨j - 3, by omega⟩
  have hget : (runCalls initialRenderer calls).2.get? j' = some (Ev.fenceWait f t) := by
    have := hj
    rw [show fullTrace calls = initEvents ++ (runCalls initialRenderer calls).2 from rfl,
      List.get?_append_right (by simp [initEvents])] at this
    simpa [initEvents] using this
  have htake : (fullTrace calls).take (3 + j') =
      initEvents ++ (runCalls initialRenderer calls).2.take j' := by
    rw [show fullTrace calls = initEvents ++ (runCalls initialRenderer calls).2 from rfl,
      show (3 : Nat) + j' = initEvents.length + j' by simp [initEvents],
      List.take_append]
  have hrun := (runCalls_fences calls initialRenderer
      (fun f => fenceStatus f initEvents)
      (Or.inl rfl) (Or.inl rfl) (Or.inl rfl)).1 j' f t hget
  rw [htake]
  show goodStatus (List.foldl (stepFence f) FenceStatus.uncreated
    (initEvents ++ (runCalls initialRenderer calls).2.take j'))
  rw [List.foldl_append]
  exact hrun

/-- Witness for C10_fence_waits: the very first draw's fence wait (index 3
of the full trace, slot 0) happens while the fence still has its
created-signaled status. -/
theorem C10_fence_waits_witness :
    fenceStatus (FenceId.slot 0) ((fullTrace [RCall.draw]).take 3) =
      FenceStatus.signaled ∨
    fenceStatus (FenceId.slot 0) ((fullTrace [RCall.draw]).take 3) =
      FenceStatus.pending :=
  C10_fence_waits [RCall.draw] 3 (FenceId.slot 0) 1000000000 (by rfl)

end GameEngine
